import Mathlib

/-!
Verification development for the libassmod-based subtitle renderer
(`src/subtitles_provider_libassmod.cpp`).

The development shallow-embeds the pure algorithmic parts of the source:
the two per-pixel blend kernels of `DrawSubtitles`, the string helpers of
the path resolver (`trim_copy`, `strip_matching_quotes`, ...), the
image-tag extractor (`collect_img_paths_from_span`, `collect_img_paths`),
and the per-path registration / memoization logic of `RegisterTagImages`,
`PrepareSubtitles` and `LoadSubtitles`.  Machine bytes are modelled as
`Nat` with explicit `% 256` where the C++ code narrows to `unsigned char`;
strings are modelled as `List Char`.  External collaborators (the
filesystem, the wx image decoder, the libass engine) are abstracted as
function parameters.
-/

namespace Spec2Proof

/-! ## Frame compositor (`DrawSubtitles` blend kernels) -/

/-- A destination pixel of the video frame, in BGRA channel order
(`bgra8_pixel_t`): index 0 = blue, 1 = green, 2 = red, 3 = alpha. -/
structure BGRA where
  b : Nat
  g : Nat
  r : Nat
  a : Nat
deriving Repr, DecidableEq

/-- A source pixel of a premultiplied RGBA tile (`rgba8_pixel_t`):
index 0 = red, 1 = green, 2 = blue, 3 = alpha. -/
structure RGBA where
  r : Nat
  g : Nat
  b : Nat
  a : Nat
deriving Repr, DecidableEq

/-- The per-pixel lambda of the RGBA branch of
`LibassModSubtitlesProvider::DrawSubtitles`:
destination channel = source channel + destination channel * (255 - alpha) / 255,
cross-mapping RGBA source order onto BGRA destination order, alpha zeroed.
The `% 256` models the `static_cast<unsigned char>` narrowing. -/
def blend_rgba_px (frame_px : BGRA) (src_px : RGBA) : BGRA :=
  let alpha := src_px.a
  let inv_alpha := 255 - alpha
  { b := (src_px.b + frame_px.b * inv_alpha / 255) % 256
    g := (src_px.g + frame_px.g * inv_alpha / 255) % 256
    r := (src_px.r + frame_px.r * inv_alpha / 255) % 256
    a := 0 }

/-- The per-pixel lambda of the legacy grayscale branch of `DrawSubtitles`.
`color` is the 32-bit packed colour of the `ASS_Image` (`_r c = c >>> 24`,
`_g c = (c >>> 16) &&& 0xFF`, `_b c = (c >>> 8) &&& 0xFF`, `_a c = c &&& 0xFF`);
`src_px` is the 8-bit mask value.  The `% 256` models the implicit
narrowing on assignment to the `uint8` channels. -/
def blend_mask_px (color : Nat) (frame_px : BGRA) (src_px : Nat) : BGRA :=
  let opacity := 255 - color % 256
  let r := color / 2 ^ 24
  let g := color / 2 ^ 16 % 256
  let b := color / 2 ^ 8 % 256
  let k := src_px * opacity / 255
  let ck := 255 - k
  { b := (k * b + ck * frame_px.b) / 255 % 256
    g := (k * g + ck * frame_px.g) / 255 % 256
    r := (k * r + ck * frame_px.r) / 255 % 256
    a := 0 }

/-- One premultiplied RGBA tile (`ASS_ImageRGBA`): dimensions, placement
offset and a source-pixel accessor (tile-local coordinates). -/
structure ImageRGBA where
  w : Nat
  h : Nat
  dst_x : Nat
  dst_y : Nat
  pix : Nat → Nat → RGBA

/-- One legacy grayscale tile (`ASS_Image`): dimensions, placement offset,
the packed colour, and the 8-bit mask accessor (tile-local coordinates). -/
structure ImageMask where
  w : Nat
  h : Nat
  dst_x : Nat
  dst_y : Nat
  color : Nat
  bitmap : Nat → Nat → Nat

/-- Compositing one RGBA tile onto the destination, as done by
`transform_pixels` over `subimage_view(dst, dst_x, dst_y, w, h)`:
covered pixels are blended, all others are untouched. -/
def composite_rgba_tile (img : ImageRGBA) (dst : Nat → Nat → BGRA) :
    Nat → Nat → BGRA := fun x y =>
  if img.dst_x ≤ x ∧ x < img.dst_x + img.w ∧ img.dst_y ≤ y ∧ y < img.dst_y + img.h then
    blend_rgba_px (dst x y) (img.pix (x - img.dst_x) (y - img.dst_y))
  else dst x y

/-- Compositing one grayscale mask tile onto the destination. -/
def composite_mask_tile (img : ImageMask) (dst : Nat → Nat → BGRA) :
    Nat → Nat → BGRA := fun x y =>
  if img.dst_x ≤ x ∧ x < img.dst_x + img.w ∧ img.dst_y ≤ y ∧ y < img.dst_y + img.h then
    blend_mask_px img.color (dst x y) (img.bitmap (x - img.dst_x) (y - img.dst_y))
  else dst x y

/-! ## PathResolver string helpers -/

/-- `std::isspace` in the default C locale (the characters tested by
`trim_copy`): space, tab, newline, vertical tab, form feed, carriage
return. -/
def is_c_space (c : Char) : Bool :=
  c = ' ' || c = '\t' || c = '\n' || c = Char.ofNat 11 || c = Char.ofNat 12 || c = '\r'

/-- `trim_copy`: drop whitespace from the front (first non-space to the
end of the string), then from the back. -/
def trim_copy (s : List Char) : List Char :=
  List.rdropWhile is_c_space (s.dropWhile is_c_space)

/-- The quote-pair test of `strip_matching_quotes`: the trimmed string has
at least two characters and its first and last characters are the same
quote character. -/
def quote_wrapped (p : List Char) : Prop :=
  2 ≤ p.length ∧
    ((p.head? = some '"' ∧ p.getLast? = some '"') ∨
     (p.head? = some '\'' ∧ p.getLast? = some '\''))

instance (p : List Char) : Decidable (quote_wrapped p) := by
  unfold quote_wrapped; infer_instance

/-- `strip_matching_quotes`: trim, remove one matching pair of
leading/trailing double or single quotes (`substr(1, size - 2)`), trim
again. -/
def strip_matching_quotes (p0 : List Char) : List Char :=
  let p := trim_copy p0
  let p2 := if quote_wrapped p then (p.drop 1).dropLast else p
  trim_copy p2

/-- `add_double_quotes`: wrap the path in one pair of double quotes. -/
def add_double_quotes (path : List Char) : List Char :=
  '"' :: path ++ ['"']

/-- `img_ascii_tolower` / the lambda of `to_lower_copy`: ASCII lowercase,
touching only A-Z. -/
def img_ascii_tolower (c : Char) : Char :=
  if 'A' ≤ c ∧ c ≤ 'Z' then Char.ofNat (c.toNat - 'A'.toNat + 'a'.toNat) else c

/-- `to_lower_copy`: lowercase every character. -/
def to_lower_copy (s : List Char) : List Char :=
  s.map img_ascii_tolower

/-- `path_basename`: everything after the last '/' or '\\'
(`find_last_of` returning `npos` keeps the whole string). -/
def path_basename (path : List Char) : List Char :=
  (path.reverse.takeWhile (fun c => c ≠ '/' && c ≠ '\\')).reverse

/-- `img_starts_with_icase`: the text starts (case-insensitively) with the
given all-lowercase literal. -/
def img_starts_with_icase : List Char → List Char → Bool
  | _, [] => true
  | [], _ :: _ => false
  | t :: ts, p :: ps => img_ascii_tolower t = p && img_starts_with_icase ts ps

/-- The image formats of the tag-image extension
(`ASS_TagImageFormat`). -/
inductive TagImageFormat
  | png
  | jpeg
  | webp
deriving Repr, DecidableEq

/-- `parse_tag_image_format`: derive the format from the (lowercased)
extension; unrecognized extensions are rejected (`none`). -/
def parse_tag_image_format (path : List Char) : Option TagImageFormat :=
  let lower := to_lower_copy path
  if 4 ≤ lower.length ∧ lower.drop (lower.length - 4) = ['.', 'p', 'n', 'g'] then
    some .png
  else if 4 ≤ lower.length ∧ lower.drop (lower.length - 4) = ['.', 'j', 'p', 'g'] then
    some .jpeg
  else if 5 ≤ lower.length ∧ lower.drop (lower.length - 5) = ['.', 'j', 'p', 'e', 'g'] then
    some .jpeg
  else if 5 ≤ lower.length ∧ lower.drop (lower.length - 5) = ['.', 'w', 'e', 'b', 'p'] then
    some .webp
  else none

/-! ## TagImageExtractor -/

/-- Space or tab, the characters skipped between the tag name, the
parenthesis and the argument. -/
def is_sp_tab (c : Char) : Bool :=
  c = ' ' || c = '\t'

/-- A digit 1-4, the optional prefix before the tag name. -/
def is_img_digit (c : Char) : Bool :=
  '1' ≤ c && c ≤ '4'

/-- One iteration of the scanning loop of `collect_img_paths_from_span`:
`rest` is the text from the current index `i` on.  Returns the raw
(pre-strip) argument when the position matches an image tag, `none` when
the iteration `continue`s without extracting. -/
def span_step (rest : List Char) : Option (List Char) :=
  match rest with
  | '\\' :: r0 =>
    let r1 := match r0 with
      | c :: r' => if is_img_digit c then r' else r0
      | [] => r0
    match r1 with
    | 'i' :: 'm' :: 'g' :: r2 =>
      match r2.dropWhile is_sp_tab with
      | '(' :: r4 =>
        match r4.dropWhile is_sp_tab with
        | [] => none
        | c :: r6 =>
          if c = '"' || c = '\'' then
            let arg := r6.takeWhile (fun d => d != c)
            if arg = [] then none else some arg
          else
            let arg := (c :: r6).takeWhile (fun d => d != ',' && d != ')')
            if arg = [] then none else some arg
      | _ => none
    | _ => none
  | _ => none

/-- The scanning loop of `collect_img_paths_from_span`: walks every index
`i` with `i + 4 < len`, extracting arguments with `span_step`, stripping
quotes, and appending each nonempty path not seen before (`seen` holds the
paths pushed so far; the output lists the newly pushed paths in order). -/
def span_scan (seen : List (List Char)) : List Char → List (List Char)
  | [] => []
  | c :: rest =>
    if rest.length < 4 then []
    else
      match span_step (c :: rest) with
      | some arg =>
        let path := strip_matching_quotes arg
        if path ≠ [] ∧ path ∉ seen then path :: span_scan (path :: seen) rest
        else span_scan seen rest
      | none => span_scan seen rest

/-- `collect_img_paths_from_span` on one span of text, with the
deduplication set threaded in. -/
def collect_img_paths_from_span (seen : List (List Char)) (data : List Char) :
    List (List Char) :=
  span_scan seen data

/-- The per-line state of `collect_img_paths`: whether a section header
was seen, whether the current section is `[Events]`, and the paths pushed
so far. -/
structure ScanState where
  saw_section : Bool
  in_events : Bool
  seen : List (List Char)
deriving Repr

/-- The per-line cleanup of `collect_img_paths`: drop one trailing
`'\r'`, then trim spaces and tabs at both ends. -/
def clean_line (l : List Char) : List Char :=
  let l1 := if l.getLast? = some '\r' then l.dropLast else l
  List.rdropWhile is_sp_tab (l1.dropWhile is_sp_tab)

/-- The inner trimming of a `[Section Name]` header line in
`collect_img_paths`: the text between the brackets with surrounding
spaces and tabs removed (`sec_start` / `sec_end`). -/
def section_name (line : List Char) : List Char :=
  List.rdropWhile is_sp_tab (((line.drop 1).dropLast).dropWhile is_sp_tab)

/-- One line of the scanning loop of `collect_img_paths`: section headers
update the state, `Dialogue:` lines inside scope are scanned, everything
else is skipped.  Returns the newly pushed paths and the new state. -/
def process_line (st : ScanState) (raw : List Char) :
    List (List Char) × ScanState :=
  let line := clean_line raw
  if line = [] then ([], st)
  else if line.head? = some '[' ∧ line.getLast? = some ']' then
    let sec := section_name line
    ([], { st with
            saw_section := true
            in_events := sec.length = 6 &&
              img_starts_with_icase sec ['e', 'v', 'e', 'n', 't', 's'] })
  else if st.saw_section ∧ st.in_events = false then ([], st)
  else if img_starts_with_icase line
      ['d', 'i', 'a', 'l', 'o', 'g', 'u', 'e', ':'] = false then ([], st)
  else
    let ps := collect_img_paths_from_span st.seen line
    (ps, { st with seen := st.seen ++ ps })

/-- The line iteration of `collect_img_paths`, threading the state. -/
def collect_lines (st : ScanState) : List (List Char) → List (List Char)
  | [] => []
  | l :: ls =>
    let r := process_line st l
    r.1 ++ collect_lines r.2 ls

/-- `collect_img_paths`: split the buffer into lines on `'\n'` and scan
them; initially no section was seen and scanning is in scope. -/
def collect_img_paths (data : List Char) : List (List Char) :=
  collect_lines ⟨false, true, []⟩ (data.splitOn '\n')

/-! ## TagImageCache and the provider operations

The filesystem, the wx image decoder and the libass engine are external
collaborators; they enter the model as function parameters:
`fileDecode` models `decode_file_image` (the decoded image together with
the resolved on-disk path, `[]` when resolution used no candidate),
`isAbs` models `path_is_absolute` (a platform filesystem test),
`accept` models the return value of `ass_set_tag_image_rgba`
(`true` = the engine accepted the key, the `>= 0` check), and
`attachDecode` models `decode_attachment_image`. -/

/-- A decoded tag image (`struct TagImage`). -/
structure TagImage where
  key : List Char
  basename_lower : List Char
  format : TagImageFormat
  width : Nat
  height : Nat
  stride : Nat
  rgba : List Nat
deriving Repr, DecidableEq

/-- The `attachment_by_name` map of `RegisterTagImages`: `emplace` keeps
the first attachment registered under a given lowercase basename. -/
def attachment_by_name (atts : List TagImage) (base : List Char) :
    Option TagImage :=
  atts.find? (fun img => decide (img.basename_lower = base))

/-- The `register_key` lambda of `RegisterTagImages`: skip empty keys and
keys already registered in this pass; otherwise call the engine
(the emitted event) and record the key when the engine accepts it.
Returns the emitted registration events and the updated key set. -/
def register_key (accept : List Char → Bool) (registered : List (List Char))
    (key : List Char) (img : TagImage) :
    List (List Char × TagImage) × List (List Char) :=
  if key = [] then ([], registered)
  else if key ∈ registered then ([], registered)
  else if accept key then ([(key, img)], key :: registered)
  else ([(key, img)], registered)

/-- The `register_path_variants` lambda: strip quotes, then register the
clean key and its double-quoted variant. -/
def register_path_variants (accept : List Char → Bool)
    (registered : List (List Char)) (key : List Char) (img : TagImage) :
    List (List Char × TagImage) × List (List Char) :=
  let clean := strip_matching_quotes key
  if clean = [] then ([], registered)
  else
    let r1 := register_key accept registered clean img
    let r2 := register_key accept r1.2 (add_double_quotes clean) img
    (r1.1 ++ r2.1, r2.2)

/-- Lookup in the `file_tag_image_cache` memo (an association list keyed
by the original, pre-resolution path). -/
def lookup_cache (cache : List (List Char × TagImage)) (path : List Char) :
    Option TagImage :=
  (cache.find? (fun e => decide (e.1 = path))).map (fun e => e.2)

/-- The registration state threaded through one `RegisterTagImages` pass:
the persistent file-image memo and the per-pass registered key set. -/
structure RegState where
  cache : List (List Char × TagImage)
  registered : List (List Char)
deriving Repr, DecidableEq

/-- The attachment-fallback tail of the per-path loop of
`RegisterTagImages`: reached when no format-matching file-backed image
exists.  Absolute paths skip the fallback; otherwise a basename-matching,
format-matching attachment is registered under the path and under the
attachment's own key. -/
def process_tag_fallback (accept : List Char → Bool) (atts : List TagImage)
    (registered : List (List Char)) (path : List Char)
    (format : TagImageFormat) (absolute : Bool) :
    List (List Char × TagImage) × List (List Char) :=
  if absolute then ([], registered)
  else
    match attachment_by_name atts (to_lower_copy (path_basename path)) with
    | none => ([], registered)
    | some image =>
      if image.format ≠ format then ([], registered)
      else
        let r1 := register_path_variants accept registered path image
        let r2 := register_path_variants accept r1.2 image.key image
        (r1.1 ++ r2.1, r2.2)

/-- One iteration of the per-path loop of `RegisterTagImages`: strip the
raw path, parse its format, consult the memo (decoding and memoizing on a
miss), register a format-matching file-backed image under the path and its
resolved key, and otherwise fall back to attachments.  Returns the emitted
registration events and the updated state. -/
def process_tag_path (accept : List Char → Bool) (isAbs : List Char → Bool)
    (fileDecode : List Char → Option (TagImage × List Char))
    (atts : List TagImage) (st : RegState) (raw_path : List Char) :
    List (List Char × TagImage) × RegState :=
  let path := strip_matching_quotes raw_path
  if path = [] then ([], st)
  else
    match parse_tag_image_format path with
    | none => ([], st)
    | some format =>
      let absolute := isAbs path
      let cache1 :=
        match lookup_cache st.cache path with
        | some _ => st.cache
        | none =>
          match fileDecode path with
          | some fr =>
            (path, { fr.1 with key := if fr.2 = [] then path else fr.2 }) :: st.cache
          | none => st.cache
      match lookup_cache cache1 path with
      | some image =>
        if image.format = format then
          let r1 := register_path_variants accept st.registered path image
          let r2 := register_path_variants accept r1.2 image.key image
          (r1.1 ++ r2.1, ⟨cache1, r2.2⟩)
        else
          let r := process_tag_fallback accept atts st.registered path format absolute
          (r.1, ⟨cache1, r.2⟩)
      | none =>
        let r := process_tag_fallback accept atts st.registered path format absolute
        (r.1, ⟨cache1, r.2⟩)

/-- The script-level cache state of the provider
(`attachment_tag_images`, `file_tag_image_cache`,
`tag_image_script_dir`). -/
structure CacheState where
  attachment_tag_images : List TagImage
  file_tag_image_cache : List (List Char × TagImage)
  tag_image_script_dir : List Char
deriving Repr, DecidableEq

/-- `PrepareSubtitles`: clear the file-image memo when the script's base
directory changed, record the new directory, and rebuild the attachment
set from the graphic-group entries (an entry is a pair of its
graphic-group flag and an abstract payload handle). -/
def PrepareSubtitles (attachDecode : Nat → Option TagImage)
    (entries : List (Bool × Nat)) (script_dir : List Char) (st : CacheState) :
    CacheState :=
  { file_tag_image_cache :=
      if script_dir ≠ st.tag_image_script_dir then [] else st.file_tag_image_cache
    tag_image_script_dir := script_dir
    attachment_tag_images :=
      (entries.filter (fun e => e.1)).filterMap (fun e => attachDecode e.2) }

/-- The script-load state of the provider: the loaded track (an abstract
engine handle), the extracted tag-image paths and the dirty flag. -/
structure ProviderState where
  ass_track : Option Nat
  tag_image_paths : List (List Char)
  tag_images_dirty : Bool
deriving Repr, DecidableEq

/-- `LoadSubtitles`: free the previous track, parse the buffer with the
engine (`readMemory` models `ass_read_memory`; `none` = the engine rejects
the buffer).  On rejection the track is null and an error is thrown
(the `some` error message) before the paths or the dirty flag are touched;
on success the paths are re-extracted and the cache is marked dirty. -/
def LoadSubtitles (readMemory : List Char → Option Nat)
    (st : ProviderState) (data : List Char) :
    ProviderState × Option String :=
  match readMemory data with
  | none =>
    ({ st with ass_track := none }, some "libassmod failed to load subtitles.")
  | some t =>
    ({ ass_track := some t
       tag_image_paths := collect_img_paths data
       tag_images_dirty := true }, none)

/-! ## Blend-kernel lemmas and claims C1, C2, C10 -/

/-- A byte sum of the premultiplied over-blend never overflows: with a
premultiplied source channel and byte-sized inputs the blend value is at
most 255, so the `unsigned char` narrowing is the identity. -/
theorem rgba_channel_no_overflow (s d a : Nat) (hs : s ≤ a) (ha : a ≤ 255)
    (hd : d ≤ 255) : (s + d * (255 - a) / 255) % 256 = s + d * (255 - a) / 255 := by
  have h1 : d * (255 - a) / 255 ≤ 255 - a := by
    have h2 : d * (255 - a) ≤ 255 * (255 - a) :=
      Nat.mul_le_mul_right (255 - a) hd
    have h3 : d * (255 - a) / 255 ≤ 255 * (255 - a) / 255 :=
      Nat.div_le_div_right h2
    have h4 : 255 * (255 - a) / 255 = 255 - a :=
      Nat.mul_div_cancel_left (255 - a) (by norm_num)
    omega
  omega

/-- A byte convex combination `(k * c + (255 - k) * d) / 255` of byte
values stays a byte, so the narrowing on assignment is the identity. -/
theorem mask_channel_no_overflow (k c d : Nat) (hk : k ≤ 255) (hc : c ≤ 255)
    (hd : d ≤ 255) :
    (k * c + (255 - k) * d) / 255 % 256 = (k * c + (255 - k) * d) / 255 := by
  have h1 : k * c ≤ k * 255 := Nat.mul_le_mul_left k hc
  have h2 : (255 - k) * d ≤ (255 - k) * 255 := Nat.mul_le_mul_left (255 - k) hd
  have h3 : k * c + (255 - k) * d ≤ 255 * 255 := by
    have : k * 255 + (255 - k) * 255 = 255 * 255 := by
      have : k + (255 - k) = 255 := by omega
      calc k * 255 + (255 - k) * 255 = (k + (255 - k)) * 255 := by ring
        _ = 255 * 255 := by rw [this]
    omega
  have h4 : (k * c + (255 - k) * d) / 255 ≤ 255 * 255 / 255 :=
    Nat.div_le_div_right h3
  have h5 : 255 * 255 / 255 = 255 := by norm_num
  have h6 : (k * c + (255 - k) * d) / 255 < 256 := by omega
  exact Nat.mod_eq_of_lt h6

/-- C1: for every tile in the premultiplied-RGBA representation and every
pixel it covers, `DrawSubtitles` computes each destination colour channel
as `source_channel + destination_channel * (255 - source_alpha) / 255`
with truncating integer division, cross-mapping the RGBA source channel
order onto the BGRA destination order, and writes 0 to the destination
alpha byte. -/
theorem C1_rgba_blend_formula (img : ImageRGBA) (dst : Nat → Nat → BGRA)
    (x y : Nat) (src : RGBA)
    (hx1 : img.dst_x ≤ x) (hx2 : x < img.dst_x + img.w)
    (hy1 : img.dst_y ≤ y) (hy2 : y < img.dst_y + img.h)
    (hsrc : img.pix (x - img.dst_x) (y - img.dst_y) = src)
    (hpr : src.r ≤ src.a) (hpg : src.g ≤ src.a) (hpb : src.b ≤ src.a)
    (ha : src.a ≤ 255) (hdb : (dst x y).b ≤ 255) (hdg : (dst x y).g ≤ 255)
    (hdr : (dst x y).r ≤ 255) :
    composite_rgba_tile img dst x y =
      { b := src.b + (dst x y).b * (255 - src.a) / 255
        g := src.g + (dst x y).g * (255 - src.a) / 255
        r := src.r + (dst x y).r * (255 - src.a) / 255
        a := 0 } := by
  unfold composite_rgba_tile
  rw [if_pos ⟨hx1, hx2, hy1, hy2⟩, hsrc]
  unfold blend_rgba_px
  simp only [BGRA.mk.injEq]
  exact ⟨rgba_channel_no_overflow _ _ _ hpb ha hdb,
    rgba_channel_no_overflow _ _ _ hpg ha hdg,
    rgba_channel_no_overflow _ _ _ hpr ha hdr, trivial⟩

/-- C1 witness: a fully opaque 1x1 source tile of colour
(R=10, G=20, B=30) composited onto a destination pixel
(B=200, G=200, R=200) yields exactly (B=30, G=20, R=10) with destination
alpha 0. -/
theorem C1_rgba_blend_formula_witness :
    composite_rgba_tile
        { w := 1, h := 1, dst_x := 0, dst_y := 0
          pix := fun _ _ => { r := 10, g := 20, b := 30, a := 255 } }
        (fun _ _ => { b := 200, g := 200, r := 200, a := 0 }) 0 0 =
      { b := 30, g := 20, r := 10, a := 0 } :=
  (C1_rgba_blend_formula _ _ 0 0 { r := 10, g := 20, b := 30, a := 255 }
    (by decide) (by decide) (by decide) (by decide) rfl
    (by decide) (by decide) (by decide) (by decide) (by decide) (by decide)
    (by decide)).trans (by decide)

/-- C2: for every tile in the grayscale alpha-mask representation with
packed colour `c`, `DrawSubtitles` derives `opacity = 255 - (c & 0xFF)`,
unpacks r, g, b from bits 24-31, 16-23 and 8-15 of `c`, computes
`k = mask * opacity / 255` per pixel, and sets each destination colour
channel to `(k * tile_colour + (255 - k) * destination) / 255` with
truncating division, writing 0 to destination alpha. -/
theorem C2_mask_blend_formula (img : ImageMask) (dst : Nat → Nat → BGRA)
    (x y : Nat)
    (hx1 : img.dst_x ≤ x) (hx2 : x < img.dst_x + img.w)
    (hy1 : img.dst_y ≤ y) (hy2 : y < img.dst_y + img.h)
    (hc : img.color < 2 ^ 32)
    (hm : img.bitmap (x - img.dst_x) (y - img.dst_y) ≤ 255)
    (hdb : (dst x y).b ≤ 255) (hdg : (dst x y).g ≤ 255)
    (hdr : (dst x y).r ≤ 255) :
    composite_mask_tile img dst x y =
      (let opacity := 255 - img.color % 256
       let r := img.color / 2 ^ 24 % 256
       let g := img.color / 2 ^ 16 % 256
       let b := img.color / 2 ^ 8 % 256
       let k := img.bitmap (x - img.dst_x) (y - img.dst_y) * opacity / 255
       { b := (k * b + (255 - k) * (dst x y).b) / 255
         g := (k * g + (255 - k) * (dst x y).g) / 255
         r := (k * r + (255 - k) * (dst x y).r) / 255
         a := 0 }) := by
  unfold composite_mask_tile
  rw [if_pos ⟨hx1, hx2, hy1, hy2⟩]
  unfold blend_mask_px
  have hr : img.color / 2 ^ 24 = img.color / 2 ^ 24 % 256 := by omega
  have hop : 255 - img.color % 256 ≤ 255 := by omega
  have hk : img.bitmap (x - img.dst_x) (y - img.dst_y) * (255 - img.color % 256) / 255 ≤ 255 := by
    have h1 : img.bitmap (x - img.dst_x) (y - img.dst_y) * (255 - img.color % 256) ≤
        255 * 255 := Nat.mul_le_mul hm hop
    have h2 : img.bitmap (x - img.dst_x) (y - img.dst_y) * (255 - img.color % 256) / 255 ≤
        255 * 255 / 255 := Nat.div_le_div_right h1
    omega
  simp only [BGRA.mk.injEq]
  refine ⟨?_, ?_, ?_, trivial⟩
  · exact mask_channel_no_overflow _ _ _ hk (by omega) hdb
  · exact mask_channel_no_overflow _ _ _ hk (by omega) hdg
  · rw [← hr]
    exact mask_channel_no_overflow _ _ _ hk (by omega) hdr

/-- C2 witness: mask = 255, opacity = 255 (colour alpha byte 0), tile
colour RGB = (1, 2, 3) onto destination (B=9, G=9, R=9) yields
destination (B=3, G=2, R=1). -/
theorem C2_mask_blend_formula_witness :
    composite_mask_tile
        { w := 1, h := 1, dst_x := 0, dst_y := 0
          color := 1 * 2 ^ 24 + 2 * 2 ^ 16 + 3 * 2 ^ 8 + 0
          bitmap := fun _ _ => 255 }
        (fun _ _ => { b := 9, g := 9, r := 9, a := 0 }) 0 0 =
      { b := 3, g := 2, r := 1, a := 0 } :=
  (C2_mask_blend_formula _ _ 0 0 (by decide) (by decide) (by decide)
    (by decide) (by decide) (by decide) (by decide) (by decide)
    (by decide)).trans (by decide)

/-- C10: in the grayscale alpha-mask blend, a covered pixel with mask
value 0 keeps its B, G and R channels exactly (k = 0 gives
(0 + 255 * d) / 255 = d), yet the destination alpha byte is overwritten
with 0 — so a zero-mask tile pixel is not a complete no-op whenever the
destination alpha byte was nonzero. -/
theorem C10_zero_mask_not_noop (img : ImageMask) (dst : Nat → Nat → BGRA)
    (x y : Nat)
    (hx1 : img.dst_x ≤ x) (hx2 : x < img.dst_x + img.w)
    (hy1 : img.dst_y ≤ y) (hy2 : y < img.dst_y + img.h)
    (hm : img.bitmap (x - img.dst_x) (y - img.dst_y) = 0)
    (hdb : (dst x y).b ≤ 255) (hdg : (dst x y).g ≤ 255)
    (hdr : (dst x y).r ≤ 255) :
    composite_mask_tile img dst x y =
      { b := (dst x y).b, g := (dst x y).g, r := (dst x y).r, a := 0 } ∧
    ((dst x y).a ≠ 0 → composite_mask_tile img dst x y ≠ dst x y) := by
  have heq : composite_mask_tile img dst x y =
      { b := (dst x y).b, g := (dst x y).g, r := (dst x y).r, a := 0 } := by
    unfold composite_mask_tile
    rw [if_pos ⟨hx1, hx2, hy1, hy2⟩]
    unfold blend_mask_px
    rw [hm]
    have hch : ∀ c d : Nat, d ≤ 255 →
        (0 * (255 - img.color % 256) / 255 * c +
          (255 - 0 * (255 - img.color % 256) / 255) * d) / 255 % 256 = d := by
      intro c d hd
      have h0 : 0 * (255 - img.color % 256) / 255 = 0 := by
        rw [Nat.zero_mul, Nat.zero_div]
      rw [h0, Nat.zero_mul, Nat.zero_add, Nat.sub_zero,
        Nat.mul_div_cancel_left d (by norm_num : (0 : Nat) < 255),
        Nat.mod_eq_of_lt (by omega)]
    simp only [BGRA.mk.injEq]
    exact ⟨hch _ _ hdb, hch _ _ hdg, hch _ _ hdr, trivial⟩
  refine ⟨heq, fun hda hcontra => hda ?_⟩
  rw [heq] at hcontra
  have := congrArg BGRA.a hcontra
  simpa using this.symm

/-- C10 witness: a zero-mask pixel over destination (B=9, G=8, R=7, A=5)
leaves the colour channels and zeroes alpha, changing the pixel. -/
theorem C10_zero_mask_not_noop_witness :
    composite_mask_tile
        { w := 1, h := 1, dst_x := 0, dst_y := 0
          color := 1 * 2 ^ 24 + 2 * 2 ^ 16 + 3 * 2 ^ 8 + 0
          bitmap := fun _ _ => 0 }
        (fun _ _ => { b := 9, g := 8, r := 7, a := 5 }) 0 0 =
      { b := 9, g := 8, r := 7, a := 0 } ∧
    composite_mask_tile
        { w := 1, h := 1, dst_x := 0, dst_y := 0
          color := 1 * 2 ^ 24 + 2 * 2 ^ 16 + 3 * 2 ^ 8 + 0
          bitmap := fun _ _ => 0 }
        (fun _ _ => { b := 9, g := 8, r := 7, a := 5 }) 0 0 ≠
      { b := 9, g := 8, r := 7, a := 5 } := by
  have h := C10_zero_mask_not_noop
    { w := 1, h := 1, dst_x := 0, dst_y := 0
      color := 1 * 2 ^ 24 + 2 * 2 ^ 16 + 3 * 2 ^ 8 + 0
      bitmap := fun _ _ => 0 }
    (fun _ _ => { b := 9, g := 8, r := 7, a := 5 }) 0 0
    (by decide) (by decide) (by decide) (by decide) rfl
    (by decide) (by decide) (by decide)
  exact ⟨h.1, h.2 (by decide)⟩

/-! ## Trimming lemmas and claim C4 -/

/-- Dropping from the back preserves the property of having no droppable
head: if `dropWhile` fixes `u`, it also fixes `rdropWhile q u`. -/
theorem dropWhile_of_rdropWhile_fixed (q : Char → Bool) (u : List Char)
    (h : List.dropWhile q u = u) :
    List.dropWhile q (List.rdropWhile q u) = List.rdropWhile q u := by
  rcases hu : List.rdropWhile q u with _ | ⟨a, l⟩
  · simp
  · obtain ⟨t, ht⟩ := List.rdropWhile_prefix q u
    rw [hu] at ht
    have hu2 : u = a :: (l ++ t) := by rw [← ht]; simp
    rw [hu2, List.dropWhile_cons] at h
    by_cases hqa : q a
    · rw [if_pos hqa] at h
      have hlen := congrArg List.length h
      rw [List.length_cons] at hlen
      have hle : (List.dropWhile q (l ++ t)).length ≤ (l ++ t).length :=
        List.Sublist.length_le (List.dropWhile_sublist q)
      omega
    · rw [List.dropWhile_cons, if_neg hqa]

/-- `trim_copy` is idempotent. -/
theorem trim_copy_idempotent (s : List Char) :
    trim_copy (trim_copy s) = trim_copy s := by
  unfold trim_copy
  rw [dropWhile_of_rdropWhile_fixed is_c_space (List.dropWhile is_c_space s)
      (List.dropWhile_idempotent is_c_space s),
    List.rdropWhile_idempotent]

/-- The output of `strip_matching_quotes` is already trimmed. -/
theorem trim_copy_strip_matching_quotes (p : List Char) :
    trim_copy (strip_matching_quotes p) = strip_matching_quotes p :=
  trim_copy_idempotent _

/-- On a trimmed string without a matching quote pair,
`strip_matching_quotes` is the identity. -/
theorem strip_of_trimmed_not_wrapped (q : List Char) (ht : trim_copy q = q)
    (h : ¬ quote_wrapped q) : strip_matching_quotes q = q := by
  show trim_copy (if quote_wrapped (trim_copy q) then
      ((trim_copy q).drop 1).dropLast else trim_copy q) = q
  rw [ht, if_neg h, ht]

/-- C4 counterexample: `StripQuotes` is not idempotent.  On the input
consisting of a single-quoted string wrapped in double quotes, one
application strips only the outer pair, so a second application strips
again. -/
theorem C4_strip_quotes_not_idempotent_counterexample :
    strip_matching_quotes
        (strip_matching_quotes ['"', '\'', 'x', '\'', '"']) ≠
      strip_matching_quotes ['"', '\'', 'x', '\'', '"'] := by decide

/-- C4 amended: `StripQuotes(StripQuotes(p)) = StripQuotes(p)` holds
whenever the once-stripped result is not itself wrapped in a matching
pair of quote characters (in general one application removes only the
outermost matching pair, so a nested pair is stripped again). -/
theorem C4_strip_quotes_conditionally_idempotent (p : List Char)
    (h : ¬ quote_wrapped (strip_matching_quotes p)) :
    strip_matching_quotes (strip_matching_quotes p) =
      strip_matching_quotes p :=
  strip_of_trimmed_not_wrapped (strip_matching_quotes p)
    (trim_copy_strip_matching_quotes p) h

/-- C4 witness: on a plain path the once-stripped result carries no quote
pair and a second strip changes nothing. -/
theorem C4_strip_quotes_conditionally_idempotent_witness :
    (¬ quote_wrapped
        (strip_matching_quotes [' ', '\'', 'a', '.', 'p', 'n', 'g', '\''])) ∧
    strip_matching_quotes
        (strip_matching_quotes [' ', '\'', 'a', '.', 'p', 'n', 'g', '\'']) =
      strip_matching_quotes [' ', '\'', 'a', '.', 'p', 'n', 'g', '\''] :=
  ⟨by decide, C4_strip_quotes_conditionally_idempotent _ (by decide)⟩

/-! ## Extractor argument-delimiting lemmas and claim C3 -/

/-- An occurrence whose argument closes immediately (`()`): the scanner
extracts nothing. -/
theorem span_step_empty_arg (rest : List Char) :
    span_step ('\\' :: 'i' :: 'm' :: 'g' :: '(' :: ')' :: rest) = none := by
  simp [span_step, is_img_digit, is_sp_tab, List.takeWhile_cons]

/-- An occurrence with an empty quoted argument: the scanner extracts
nothing. -/
theorem span_step_empty_quoted_arg (q : Char) (rest : List Char)
    (hq : q = '"' ∨ q = '\'') :
    span_step ('\\' :: 'i' :: 'm' :: 'g' :: '(' :: q :: q :: rest) = none := by
  rcases hq with h | h <;> subst h <;>
    simp [span_step, is_img_digit, is_sp_tab, List.takeWhile_cons]

/-- A quoted argument whose closing quote never appears: the scanner
extracts the whole remaining span. -/
theorem span_step_unterminated_quoted (s : List Char) (hne : s ≠ [])
    (hq : '"' ∉ s) :
    span_step ('\\' :: 'i' :: 'm' :: 'g' :: '(' :: '"' :: s) = some s := by
  have harg : s.takeWhile (fun d => d != '"') = s :=
    List.takeWhile_eq_self_iff.mpr (fun x hx => by
      simp only [bne_iff_ne, ne_eq]
      exact fun hxq => hq (hxq ▸ hx))
  simp [span_step, is_img_digit, is_sp_tab, harg, hne]

/-- An unquoted argument never followed by ',' or ')': the scanner
extracts the whole remaining span. -/
theorem span_step_unterminated_unquoted (c : Char) (s : List Char)
    (h0 : is_sp_tab c = false) (h1 : c ≠ '"') (h2 : c ≠ '\'') (h3 : c ≠ ',')
    (h4 : c ≠ ')') (h5 : ',' ∉ s) (h6 : ')' ∉ s) :
    span_step ('\\' :: 'i' :: 'm' :: 'g' :: '(' :: c :: s) = some (c :: s) := by
  have h0' : ¬(c = ' ' ∨ c = '\t') := by
    simpa [is_sp_tab] using h0
  have harg : (c :: s).takeWhile (fun d => d != ',' && d != ')') = c :: s :=
    List.takeWhile_eq_self_iff.mpr (fun x hx => by
      simp only [Bool.and_eq_true, bne_iff_ne, ne_eq]
      rcases List.mem_cons.mp hx with h | h
      · exact ⟨h ▸ h3, h ▸ h4⟩
      · exact ⟨fun hc => h5 (hc ▸ h), fun hc => h6 (hc ▸ h)⟩)
  simp [span_step, is_img_digit, is_sp_tab, List.dropWhile_cons, h0', h1,
    h2, h3, h4, harg]

/-- C3 counterexample: an unterminated argument does NOT yield no path.
On the spans consisting of an image tag whose unquoted (resp. quoted)
argument is never terminated, the extractor contributes a path. -/
theorem C3_unterminated_counterexample :
    collect_img_paths_from_span [] ['\\', 'i', 'm', 'g', '(', 'a', 'b', 'c'] ≠ [] ∧
    collect_img_paths_from_span []
        ['\\', 'i', 'm', 'g', '(', '"', 'a', 'b', 'c'] ≠ [] := by decide

/-- C3 amended: an occurrence whose argument is empty (immediately closed,
or an empty quoted pair) contributes no path; an occurrence whose argument
is unterminated is treated as if it were terminated at the end of the
scanned span — the scanner extracts the text from the argument start to
the end of the span (so it does contribute that path, quote-stripped,
when nonempty). -/
theorem C3_empty_or_unterminated_amended :
    (∀ rest, span_step ('\\' :: 'i' :: 'm' :: 'g' :: '(' :: ')' :: rest) = none) ∧
    (∀ q rest, q = '"' ∨ q = '\'' →
      span_step ('\\' :: 'i' :: 'm' :: 'g' :: '(' :: q :: q :: rest) = none) ∧
    (∀ s, s ≠ [] → '"' ∉ s →
      span_step ('\\' :: 'i' :: 'm' :: 'g' :: '(' :: '"' :: s) = some s) ∧
    (∀ c s, is_sp_tab c = false → c ≠ '"' → c ≠ '\'' → c ≠ ',' → c ≠ ')' →
      ',' ∉ s → ')' ∉ s →
      span_step ('\\' :: 'i' :: 'm' :: 'g' :: '(' :: c :: s) = some (c :: s)) ∧
    collect_img_paths_from_span [] ['\\', 'i', 'm', 'g', '(', ')'] = [] ∧
    collect_img_paths_from_span []
        ['\\', 'i', 'm', 'g', '(', 'a', 'b', 'c'] = [['a', 'b', 'c']] :=
  ⟨span_step_empty_arg,
    fun q rest hq => span_step_empty_quoted_arg q rest hq,
    span_step_unterminated_quoted,
    span_step_unterminated_unquoted,
    by decide, by decide⟩

/-- C3 witness: the amended behaviour at concrete inputs — empty
arguments extract nothing, unterminated arguments extract the remaining
span. -/
theorem C3_empty_or_unterminated_amended_witness :
    span_step ['\\', 'i', 'm', 'g', '(', ')', 'x'] = none ∧
    span_step ['\\', 'i', 'm', 'g', '(', '"', '"'] = none ∧
    span_step ['\\', 'i', 'm', 'g', '(', '"', 'a'] = some ['a'] ∧
    span_step ['\\', 'i', 'm', 'g', '(', 'b'] = some ['b'] :=
  ⟨C3_empty_or_unterminated_amended.1 ['x'],
    C3_empty_or_unterminated_amended.2.1 '"' [] (Or.inl rfl),
    C3_empty_or_unterminated_amended.2.2.1 ['a'] (by decide) (by decide),
    C3_empty_or_unterminated_amended.2.2.2.1 'b' [] (by decide) (by decide)
      (by decide) (by decide) (by decide) (by decide) (by decide)⟩

/-! ## Extractor ordering/deduplication lemmas and claim C7 -/

/-- Every path produced by the scanning loop was not in the
deduplication set it started from. -/
theorem span_scan_not_mem_seen :
    ∀ (data : List Char) (seen : List (List Char)) (p : List Char),
      p ∈ span_scan seen data → p ∉ seen := by
  intro data
  induction data with
  | nil => intro seen p hp; simp [span_scan] at hp
  | cons c rest ih =>
    intro seen p hp
    rw [span_scan] at hp
    by_cases hlen : rest.length < 4
    · rw [if_pos hlen] at hp; simp at hp
    · rw [if_neg hlen] at hp
      rcases hstep : span_step (c :: rest) with _ | arg
      · rw [hstep] at hp; exact ih seen p hp
      · rw [hstep] at hp
        simp only at hp
        by_cases hcond : strip_matching_quotes arg ≠ [] ∧
            strip_matching_quotes arg ∉ seen
        · rw [if_pos hcond] at hp
          rcases List.mem_cons.mp hp with h | h
          · exact h ▸ hcond.2
          · intro hs
            exact ih _ p h (List.mem_cons_of_mem _ hs)
        · rw [if_neg hcond] at hp; exact ih seen p hp

/-- The scanning loop never produces duplicates: each pushed path is
added to the deduplication set before the loop continues. -/
theorem span_scan_nodup :
    ∀ (data : List Char) (seen : List (List Char)),
      (span_scan seen data).Nodup := by
  intro data
  induction data with
  | nil => intro seen; simp [span_scan]
  | cons c rest ih =>
    intro seen
    rw [span_scan]
    by_cases hlen : rest.length < 4
    · rw [if_pos hlen]; exact List.nodup_nil
    · rw [if_neg hlen]
      rcases hstep : span_step (c :: rest) with _ | arg
      · exact ih seen
      · simp only
        by_cases hcond : strip_matching_quotes arg ≠ [] ∧
            strip_matching_quotes arg ∉ seen
        · rw [if_pos hcond]
          refine List.nodup_cons.mpr ⟨?_, ih _⟩
          intro hmem
          exact span_scan_not_mem_seen rest _ _ hmem (List.mem_cons_self _ _)
        · rw [if_neg hcond]; exact ih seen

/-- C7: extraction returns, for each valid image-tag occurrence (with or
without a single leading digit 1-4), the exact unquoted,
whitespace-trimmed argument, ordered by first occurrence and deduplicated
by post-strip value with the first occurrence winning — on the claim's
input the result is exactly a.png then b.jpg — and in general the result
is duplicate-free and disjoint from the paths already seen. -/
theorem C7_extraction_order_dedup :
    collect_img_paths_from_span []
        ("\\img(a.png)...\\2img(\"a.png\")...\\img(b.jpg)".toList) =
      ["a.png".toList, "b.jpg".toList] ∧
    (∀ seen data, (collect_img_paths_from_span seen data).Nodup) ∧
    (∀ seen data p, p ∈ collect_img_paths_from_span seen data → p ∉ seen) :=
  ⟨by decide, fun seen data => span_scan_nodup data seen,
    fun seen data => span_scan_not_mem_seen data seen⟩

/-- C7 witness: on a concrete scan starting from a nonempty seen set, the
produced path was not previously seen. -/
theorem C7_extraction_order_dedup_witness :
    "b.png".toList ∈ collect_img_paths_from_span [['a']]
        ("\\img(b.png)".toList) ∧
    "b.png".toList ∉ ([['a']] : List (List Char)) :=
  ⟨by decide, C7_extraction_order_dedup.2.2 [['a']] ("\\img(b.png)".toList)
    ("b.png".toList) (by decide)⟩

/-! ## Strict-mode sectioning and claim C6 -/

/-- A nonempty case-insensitive prefix match forces a nonempty text whose
head lowercases to the first pattern character. -/
theorem icase_cons (l : List Char) (p : Char) (ps : List Char)
    (h : img_starts_with_icase l (p :: ps) = true) :
    ∃ t ts, l = t :: ts ∧ img_ascii_tolower t = p ∧
      img_starts_with_icase ts ps = true := by
  cases l with
  | nil => simp [img_starts_with_icase] at h
  | cons t ts =>
    rw [img_starts_with_icase, Bool.and_eq_true, decide_eq_true_iff] at h
    exact ⟨t, ts, rfl, h.1, h.2⟩

/-- C6: strict-mode extraction tracks bracketed section-header lines
case-insensitively and scans only `Dialogue:` lines inside a section
named Events: (1) in a non-Events section every line contributes no
paths; (2) before any section header a `Dialogue:` line is scanned;
(3) a header line contributes no paths, records that a section was seen,
and enters Events-scope exactly when the bracketed name is the
six-character case-insensitive word events; concretely, an image tag
under `[V4+ Styles]` is not extracted while tags before any header and
under `[EvEnTs]` are. -/
theorem C6_strict_mode_sections :
    (∀ st l, st.saw_section = true → st.in_events = false →
      (process_line st l).1 = []) ∧
    (∀ st l, st.saw_section = false →
      img_starts_with_icase (clean_line l)
        ['d', 'i', 'a', 'l', 'o', 'g', 'u', 'e', ':'] = true →
      (process_line st l).1 = collect_img_paths_from_span st.seen (clean_line l)) ∧
    (∀ st l, clean_line l ≠ [] →
      (clean_line l).head? = some '[' →
      (clean_line l).getLast? = some ']' →
      (process_line st l).1 = [] ∧
      (process_line st l).2.saw_section = true ∧
      ((process_line st l).2.in_events = true ↔
        (section_name (clean_line l)).length = 6 ∧
        img_starts_with_icase (section_name (clean_line l))
          ['e', 'v', 'e', 'n', 't', 's'] = true)) ∧
    collect_img_paths ("[V4+ Styles]\nDialogue: x\\img(x.png)y\n".toList) = [] ∧
    collect_img_paths
        ("Dialogue: \\img(a.png)\n[oTHer]\nDialogue: \\img(q.png)\n[EvEnTs]\nDialogue: \\img(z.png)\n".toList) =
      ["a.png".toList, "z.png".toList] := by
  refine ⟨?_, ?_, ?_, by decide, by decide⟩
  · intro st l h1 h2
    simp only [process_line]
    by_cases hl : clean_line l = []
    · rw [if_pos hl]
    · rw [if_neg hl]
      by_cases hh : (clean_line l).head? = some '[' ∧
          (clean_line l).getLast? = some ']'
      · rw [if_pos hh]
      · rw [if_neg hh, if_pos ⟨h1, h2⟩]
  · intro st l h1 h2
    obtain ⟨t, ts, hl, htol, _⟩ := icase_cons _ _ _ h2
    simp only [process_line]
    rw [if_neg (by rw [hl]; exact List.cons_ne_nil t ts)]
    have hh : ¬((clean_line l).head? = some '[' ∧
        (clean_line l).getLast? = some ']') := by
      intro hcontra
      rw [hl] at hcontra
      have ht : t = '[' := by simpa using hcontra.1
      rw [ht] at htol
      exact absurd htol (by decide)
    rw [if_neg hh]
    rw [if_neg (by rw [h1]; simp)]
    rw [if_neg (by rw [h2]; simp)]
  · intro st l hne hh1 hh2
    simp only [process_line]
    rw [if_neg hne, if_pos ⟨hh1, hh2⟩]
    refine ⟨rfl, rfl, ?_⟩
    simp [Bool.and_eq_true, decide_eq_true_iff]

/-- C6 witness: the three quantified parts at concrete inputs — a line in
a non-Events section contributes nothing, a `Dialogue:` line before any
header is scanned, and an `[Events]` header line flips the state. -/
theorem C6_strict_mode_sections_witness :
    (process_line ⟨true, false, []⟩ ("Dialogue: \\img(a.png)".toList)).1 = [] ∧
    (process_line ⟨false, true, []⟩ ("Dialogue: \\img(a.png)".toList)).1 =
      collect_img_paths_from_span []
        (clean_line ("Dialogue: \\img(a.png)".toList)) ∧
    (process_line ⟨false, false, []⟩ ("[Events]".toList)).2.saw_section = true :=
  ⟨C6_strict_mode_sections.1 ⟨true, false, []⟩ _ rfl rfl,
    C6_strict_mode_sections.2.1 ⟨false, true, []⟩ _ rfl (by decide),
    (C6_strict_mode_sections.2.2.1 ⟨false, false, []⟩ ("[Events]".toList)
      (by decide) (by decide) (by decide)).2.1⟩

/-! ## Claim C8: LoadSubtitles -/

/-- C8: `LoadSubtitles` throws exactly when the engine rejects the buffer;
on success the previously loaded script is replaced in full (the new
track, the freshly extracted tag-image path list, and the dirty flag set);
on the failure path the previous track has been freed and the loaded-track
slot is null, so no stale script remains loaded. -/
theorem C8_load_subtitles (readMemory : List Char → Option Nat)
    (st : ProviderState) (data : List Char) :
    ((LoadSubtitles readMemory st data).2 ≠ none ↔ readMemory data = none) ∧
    (∀ t, readMemory data = some t →
      (LoadSubtitles readMemory st data).1 =
        { ass_track := some t
          tag_image_paths := collect_img_paths data
          tag_images_dirty := true }) ∧
    (readMemory data = none →
      (LoadSubtitles readMemory st data).1.ass_track = none) := by
  rcases h : readMemory data with _ | t <;> simp [LoadSubtitles, h]

/-- C8 witness: a successful load at a concrete buffer fully replaces the
previous state and extracts the tag path; a rejected load leaves no track
loaded. -/
theorem C8_load_subtitles_witness :
    ((LoadSubtitles (fun _ => some 7) ⟨some 3, [['a']], false⟩
        ("Dialogue: \\img(a.png)".toList)).1 =
      { ass_track := some 7, tag_image_paths := ["a.png".toList]
        tag_images_dirty := true }) ∧
    ((LoadSubtitles (fun _ => none) ⟨some 3, [['a']], false⟩ []).1.ass_track =
      none) :=
  ⟨((C8_load_subtitles (fun _ => some 7) ⟨some 3, [['a']], false⟩ _).2.1 7
      rfl).trans (by decide),
    (C8_load_subtitles (fun _ => none) ⟨some 3, [['a']], false⟩ []).2.2 rfl⟩

/-! ## Registration of referenced paths and claim C5 -/

/-- The lowercased extension of a recognized tag-image path makes its
last character g or p. -/
theorem parse_format_last_char (p : List Char) (f : TagImageFormat)
    (h : parse_tag_image_format p = some f) :
    (to_lower_copy p).getLast? = some 'g' ∨
      (to_lower_copy p).getLast? = some 'p' := by
  simp only [parse_tag_image_format] at h
  split at h
  case isTrue hc =>
    left
    conv_lhs => rw [← List.take_append_drop ((to_lower_copy p).length - 4)
      (to_lower_copy p)]
    rw [hc.2, List.getLast?_append]
    rfl
  case isFalse =>
    split at h
    case isTrue hc =>
      left
      conv_lhs => rw [← List.take_append_drop ((to_lower_copy p).length - 4)
        (to_lower_copy p)]
      rw [hc.2, List.getLast?_append]
      rfl
    case isFalse =>
      split at h
      case isTrue hc =>
        left
        conv_lhs => rw [← List.take_append_drop ((to_lower_copy p).length - 5)
          (to_lower_copy p)]
        rw [hc.2, List.getLast?_append]
        rfl
      case isFalse =>
        split at h
        case isTrue hc =>
          right
          conv_lhs => rw [← List.take_append_drop ((to_lower_copy p).length - 5)
            (to_lower_copy p)]
          rw [hc.2, List.getLast?_append]
          rfl
        case isFalse => exact absurd h (by simp)

/-- A path with a recognized image extension does not end in a quote
character, so it is not quote-wrapped. -/
theorem parse_format_not_wrapped (p : List Char) (f : TagImageFormat)
    (h : parse_tag_image_format p = some f) : ¬ quote_wrapped p := by
  intro hw
  have hlast : p.getLast? = some '"' ∨ p.getLast? = some '\'' := by
    rcases hw.2 with ⟨_, h2⟩ | ⟨_, h2⟩
    · exact Or.inl h2
    · exact Or.inr h2
  have hlow := parse_format_last_char p f h
  rw [to_lower_copy, List.getLast?_map] at hlow
  rcases hlast with h2 | h2 <;> rw [h2] at hlow <;> revert hlow <;> decide

/-- A stripped path whose format parses is a fixed point of
`strip_matching_quotes`. -/
theorem strip_fixpoint_of_parse (raw : List Char) (f : TagImageFormat)
    (hf : parse_tag_image_format (strip_matching_quotes raw) = some f) :
    strip_matching_quotes (strip_matching_quotes raw) =
      strip_matching_quotes raw :=
  strip_of_trimmed_not_wrapped _ (trim_copy_strip_matching_quotes raw)
    (parse_format_not_wrapped _ _ hf)

/-- A nonempty, not-yet-registered key is always passed to the engine
(whether or not the engine then accepts it). -/
theorem register_key_emits (accept : List Char → Bool)
    (regs : List (List Char)) (key : List Char) (img : TagImage)
    (hk : key ≠ []) (hr : key ∉ regs) :
    (key, img) ∈ (register_key accept regs key img).1 := by
  unfold register_key
  rw [if_neg hk, if_neg hr]
  by_cases ha : accept key <;> simp [ha]

/-- `register_path_variants` emits the quote-stripped key. -/
theorem register_path_variants_emits (accept : List Char → Bool)
    (regs : List (List Char)) (key : List Char) (img : TagImage)
    (hclean : strip_matching_quotes key ≠ [])
    (hr : strip_matching_quotes key ∉ regs) :
    (strip_matching_quotes key, img) ∈
      (register_path_variants accept regs key img).1 := by
  simp only [register_path_variants]
  rw [if_neg hclean]
  exact List.mem_append_left _ (register_key_emits accept regs _ img hclean hr)

/-- C5: during tag-image registration, a non-absolute referenced path
that resolves to no on-disk file is registered from the attachment whose
lowercase basename and declared format match (the attachment fallback);
an absolute referenced path that resolves to no on-disk file produces no
registration at all, even when an attachment's basename matches. -/
theorem C5_attachment_fallback :
    (∀ (accept isAbs : List Char → Bool)
      (fileDecode : List Char → Option (TagImage × List Char))
      (atts : List TagImage) (st : RegState) (raw path : List Char)
      (f : TagImageFormat) (a : TagImage),
      strip_matching_quotes raw = path →
      path ≠ [] →
      parse_tag_image_format path = some f →
      isAbs path = false →
      lookup_cache st.cache path = none →
      fileDecode path = none →
      attachment_by_name atts (to_lower_copy (path_basename path)) = some a →
      a.format = f →
      path ∉ st.registered →
      (path, a) ∈ (process_tag_path accept isAbs fileDecode atts st raw).1) ∧
    (∀ (accept isAbs : List Char → Bool)
      (fileDecode : List Char → Option (TagImage × List Char))
      (atts : List TagImage) (st : RegState) (raw path : List Char)
      (f : TagImageFormat),
      strip_matching_quotes raw = path →
      path ≠ [] →
      parse_tag_image_format path = some f →
      isAbs path = true →
      lookup_cache st.cache path = none →
      fileDecode path = none →
      (process_tag_path accept isAbs fileDecode atts st raw).1 = []) := by
  constructor
  · intro accept isAbs fileDecode atts st raw path f a hp hne hf habs hcache
      hfd hatt hfmt hreg
    subst hp
    have hfix := strip_fixpoint_of_parse raw f hf
    simp only [process_tag_path, process_tag_fallback, hne, hf, hcache, hfd,
      habs, hatt, hfmt, if_neg hne]
    simp only [ne_eq, not_true_eq_false, if_false, Bool.false_eq_true]
    refine List.mem_append_left _ ?_
    have hm := register_path_variants_emits accept st.registered
      (strip_matching_quotes raw) a (by rw [hfix]; exact hne)
      (by rw [hfix]; exact hreg)
    rw [hfix] at hm
    exact hm
  · intro accept isAbs fileDecode atts st raw path f hp hne hf habs hcache hfd
    subst hp
    simp only [process_tag_path, process_tag_fallback, hf, hcache, hfd, habs,
      if_neg hne, if_pos trivial]

/-- C5 witness: with one attachment named foo.png, the bare reference
foo.png with no on-disk file falls back to the attachment, while the
absolute reference /abs/other/foo.png registers nothing. -/
theorem C5_attachment_fallback_witness :
    ("foo.png".toList,
        ({ key := "foo.png".toList, basename_lower := "foo.png".toList
           format := TagImageFormat.png, width := 1, height := 1
           stride := 4, rgba := [1, 2, 3, 4] } : TagImage)) ∈
      (process_tag_path (fun _ => true) (fun _ => false) (fun _ => none)
        [{ key := "foo.png".toList, basename_lower := "foo.png".toList
           format := TagImageFormat.png, width := 1, height := 1
           stride := 4, rgba := [1, 2, 3, 4] }]
        ⟨[], []⟩ ("foo.png".toList)).1 ∧
    (process_tag_path (fun _ => true) (fun _ => true) (fun _ => none)
        [{ key := "foo.png".toList, basename_lower := "foo.png".toList
           format := TagImageFormat.png, width := 1, height := 1
           stride := 4, rgba := [1, 2, 3, 4] }]
        ⟨[], []⟩ ("/abs/other/foo.png".toList)).1 = [] :=
  ⟨C5_attachment_fallback.1 (fun _ => true) (fun _ => false) (fun _ => none)
      _ ⟨[], []⟩ ("foo.png".toList) ("foo.png".toList) TagImageFormat.png _
      (by decide) (by decide) (by decide) rfl rfl rfl (by decide) rfl
      (by decide),
    C5_attachment_fallback.2 (fun _ => true) (fun _ => true) (fun _ => none)
      _ ⟨[], []⟩ ("/abs/other/foo.png".toList) ("/abs/other/foo.png".toList)
      TagImageFormat.png (by decide) (by decide) (by decide) rfl rfl rfl⟩

/-! ## Memoized resolution and claim C9 -/

/-- Lookup hits the entry just memoized. -/
theorem lookup_cache_cons_self (c : List (List Char × TagImage))
    (p : List Char) (i : TagImage) :
    lookup_cache ((p, i) :: c) p = some i := by
  simp [lookup_cache]

/-- After a cache-missing resolution whose decode succeeds, the memo
holds exactly the decoded image, keyed by the original path, with the
image key set to the resolved path (or the path itself when resolution
used no candidate). -/
theorem process_cache_after_decode (accept isAbs : List Char → Bool)
    (fd : List Char → Option (TagImage × List Char))
    (atts : List TagImage) (raw path : List Char) (f : TagImageFormat)
    (img : TagImage) (res : List Char)
    (hp : strip_matching_quotes raw = path)
    (hne : path ≠ [])
    (hf : parse_tag_image_format path = some f)
    (hfd : fd path = some (img, res)) :
    (process_tag_path accept isAbs fd atts ⟨[], []⟩ raw).2.cache =
      [(path, { img with key := if res = [] then path else res })] := by
  subst hp
  have h1 : lookup_cache [] (strip_matching_quotes raw) = none := rfl
  simp only [process_tag_path, if_neg hne, hf, h1, hfd, lookup_cache_cons_self]
  split <;> rfl

/-- C9: resolution is memoized and deterministic — (1) when the memo
already holds the referenced path, the outcome does not depend on the
filesystem decoder at all (the filesystem is not touched again);
(2) `PrepareSubtitles` with an unchanged base directory keeps the memo;
(3) `PrepareSubtitles` with a changed base directory clears the memo;
(4) after a first, filesystem-backed resolution, a second resolution of
the same path in a fresh registration pass returns the identical outcome
with any (even changed) filesystem decoder. -/
theorem C9_memoized_resolution :
    (∀ (accept isAbs : List Char → Bool)
      (fd fd' : List Char → Option (TagImage × List Char))
      (atts : List TagImage) (st : RegState) (raw : List Char),
      lookup_cache st.cache (strip_matching_quotes raw) ≠ none →
      process_tag_path accept isAbs fd atts st raw =
        process_tag_path accept isAbs fd' atts st raw) ∧
    (∀ (attachDecode : Nat → Option TagImage) (entries : List (Bool × Nat))
      (dir : List Char) (st : CacheState),
      dir = st.tag_image_script_dir →
      (PrepareSubtitles attachDecode entries dir st).file_tag_image_cache =
        st.file_tag_image_cache) ∧
    (∀ (attachDecode : Nat → Option TagImage) (entries : List (Bool × Nat))
      (dir : List Char) (st : CacheState),
      dir ≠ st.tag_image_script_dir →
      (PrepareSubtitles attachDecode entries dir st).file_tag_image_cache =
        []) ∧
    (∀ (accept isAbs : List Char → Bool)
      (fd fd' : List Char → Option (TagImage × List Char))
      (atts : List TagImage) (raw path : List Char) (f : TagImageFormat)
      (img : TagImage) (res : List Char),
      strip_matching_quotes raw = path →
      path ≠ [] →
      parse_tag_image_format path = some f →
      fd path = some (img, res) →
      process_tag_path accept isAbs fd' atts
          ⟨(process_tag_path accept isAbs fd atts ⟨[], []⟩ raw).2.cache, []⟩
          raw =
        process_tag_path accept isAbs fd atts ⟨[], []⟩ raw) := by
  refine ⟨?_, ?_, ?_, ?_⟩
  · intro accept isAbs fd fd' atts st raw h
    obtain ⟨img, himg⟩ := Option.ne_none_iff_exists'.mp h
    simp only [process_tag_path, himg]
  · intro attachDecode entries dir st h
    simp [PrepareSubtitles, h]
  · intro attachDecode entries dir st h
    simp [PrepareSubtitles, h]
  · intro accept isAbs fd fd' atts raw path f img res hp hne hf hfd
    rw [process_cache_after_decode accept isAbs fd atts raw path f img res
      hp hne hf hfd]
    subst hp
    have h1 : lookup_cache [] (strip_matching_quotes raw) = none := rfl
    simp only [process_tag_path, if_neg hne, hf, h1, hfd,
      lookup_cache_cons_self]

/-- C9 witness: a concrete first resolution memoizes the decoded image;
the second resolution with a decoder that no longer finds any file
returns the identical outcome, and a changed base directory clears the
memo. -/
theorem C9_memoized_resolution_witness :
    process_tag_path (fun _ => true) (fun _ => false) (fun _ => none) []
        ⟨(process_tag_path (fun _ => true) (fun _ => false)
            (fun _ => some
              ({ key := [], basename_lower := "a.png".toList
                 format := TagImageFormat.png, width := 1, height := 1
                 stride := 4, rgba := [9, 9, 9, 9] }, "d/a.png".toList)) []
            ⟨[], []⟩ ("a.png".toList)).2.cache, []⟩ ("a.png".toList) =
      process_tag_path (fun _ => true) (fun _ => false)
        (fun _ => some
          ({ key := [], basename_lower := "a.png".toList
             format := TagImageFormat.png, width := 1, height := 1
             stride := 4, rgba := [9, 9, 9, 9] }, "d/a.png".toList)) []
        ⟨[], []⟩ ("a.png".toList) ∧
    (PrepareSubtitles (fun _ => none) [] ("newdir".toList)
        ⟨[], [("a.png".toList,
          { key := "d/a.png".toList, basename_lower := "a.png".toList
            format := TagImageFormat.png, width := 1, height := 1
            stride := 4, rgba := [9, 9, 9, 9] })], "olddir".toList⟩).file_tag_image_cache = [] :=
  ⟨C9_memoized_resolution.2.2.2 (fun _ => true) (fun _ => false) _
      (fun _ => none) [] ("a.png".toList) ("a.png".toList)
      TagImageFormat.png _ ("d/a.png".toList) (by decide) (by decide)
      (by decide) rfl,
    C9_memoized_resolution.2.2.1 (fun _ => none) [] ("newdir".toList) _
      (by decide)⟩

end Spec2Proof
